import Mathlib

/-!
Verification of the two-tier rate limiter from the repository
`MaisamV/rate-limit` (Go). The embedding below follows the Go source
files, chiefly `internal/ratelimit/infrastructure/hybrid_repository.go`
(which holds both `HybridRateLimitRepository` and
`RedisRateLimitRepository`), the application-layer command handlers
(`CheckRateLimitCommandHandler.Handle` and
`CheckRateLimitWithDetailCommandHandler.Handle`), and the Redis commands
the adapter issues (`SETNX key 0 EX window`, `INCR key`, `TTL key`).

Conventions of the embedding:
- Go `int`/`int64` become `Int` (overflow is irrelevant to the claims).
- `time.Now().UnixNano()` becomes an explicit `now : Int` parameter; a
  single Go function body observes one instant.
- `sync.Map` and the Redis keyspace become association lists over
  `String` keys; `Store` overwrites in place, `Load` is a lookup,
  `Delete` removes, `Range` is a traversal.
- `sync.Map` holds values of type `interface` in Go; readers perform the
  unchecked assertion `value.(*CacheEntry)`.  The model keeps this: cache
  values have type `StoredValue` (either a genuine entry or some other
  value), and each reader performs `asEntry`, failing with
  `internalInvariant` exactly where the Go assertion would panic.
- Go functions returning `error` become `Except RateLimitError`; every
  stateful operation also returns the resulting state, unchanged on the
  error exits that the Go code takes before mutating.
- Whether the Redis round trip succeeds is a parameter `storeUp`; when it
  fails, `pipe.Exec` returns an error and no command takes effect.
-/

namespace RateLimit

/-- Error taxonomy of the system: validation failures raised by the
command handlers, Redis pipeline failures, and panics from the unchecked
`value.(*CacheEntry)` type assertions on local-cache values. -/
inductive RateLimitError
  | validation
  | storeUnavailable
  | internalInvariant
deriving Repr, DecidableEq

/-- `CacheEntry` from hybrid_repository.go: `Count int64`, `Limit int`,
`ResetTime int64` (Unix nanoseconds). -/
structure CacheEntry where
  count : Int
  limit : Int
  resetTime : Int
deriving Repr, DecidableEq

/-- A value held in the `sync.Map`: in Go the map stores `interface`
values, so a slot is either a (non-nil) `*CacheEntry` or anything else
(`other` covers nil pointers and foreign types alike). -/
inductive StoredValue
  | entry (e : CacheEntry)
  | other
deriving Repr, DecidableEq

/-- The unchecked Go type assertion `value.(*CacheEntry)`: succeeds on a
genuine entry and panics (modelled as `internalInvariant`) otherwise. -/
def asEntry : StoredValue → Except RateLimitError CacheEntry
  | .entry e => .ok e
  | .other => .error .internalInvariant

/-- Association-list lookup, modelling `sync.Map.Load` / Redis `GET`. -/
def assocLoad {κ α : Type} [DecidableEq κ] : List (κ × α) → κ → Option α
  | [], _ => none
  | (k, v) :: rest, key => if k = key then some v else assocLoad rest key

/-- Association-list overwrite, modelling `sync.Map.Store` / Redis `SET`:
replaces the binding for `key` if present, appends it otherwise. -/
def assocStore {κ α : Type} [DecidableEq κ] : List (κ × α) → κ → α → List (κ × α)
  | [], key, v => [(key, v)]
  | (k, w) :: rest, key, v =>
    if k = key then (key, v) :: rest else (k, w) :: assocStore rest key v

/-- Association-list removal, modelling `sync.Map.Delete`. -/
def assocDelete {κ α : Type} [DecidableEq κ] : List (κ × α) → κ → List (κ × α)
  | [], _ => []
  | (k, w) :: rest, key =>
    if k = key then assocDelete rest key else (k, w) :: assocDelete rest key

/-- The process-local table `HybridRateLimitRepository.localCache`. -/
abbrev LocalCache := List (String × StoredValue)

/-- `checkLocalCache` from hybrid_repository.go: no entry or an expired
entry (`now > resetTime`) allows and defers to Redis; otherwise the
request passes iff `count < limit`. -/
def checkLocalCache (m : LocalCache) (now : Int) (userId : String) (limit : Int) :
    Except RateLimitError Bool :=
  match assocLoad m userId with
  | none => .ok true
  | some v =>
    match asEntry v with
    | .error e => .error e
    | .ok entry =>
      if now > entry.resetTime then .ok true
      else .ok (decide (entry.count < limit))

/-- `updateLocalCacheWithRedisValues` from hybrid_repository.go: computes
`resetTime = now + ttl` and stores `{currentCount, limit, resetTime}`,
creating the entry if absent and overwriting every field if present. -/
def updateLocalCacheWithRedisValues (m : LocalCache) (now : Int) (userId : String)
    (limit : Int) (currentCount : Int) (ttl : Int) : Except RateLimitError LocalCache :=
  let resetTime := now + ttl
  match assocLoad m userId with
  | none => .ok (assocStore m userId (.entry ⟨currentCount, limit, resetTime⟩))
  | some v =>
    match asEntry v with
    | .error e => .error e
    | .ok _ => .ok (assocStore m userId (.entry ⟨currentCount, limit, resetTime⟩))

/-- `incrementLocalCache` from hybrid_repository.go: creates
`{1, limit, now + windowSize}` when the entry is absent, resets to the
same when the entry is expired (`now > resetTime`), and otherwise adds 1
to the count, leaving `Limit` and `ResetTime` untouched. -/
def incrementLocalCache (m : LocalCache) (now window : Int) (userId : String)
    (limit : Int) : Except RateLimitError LocalCache :=
  match assocLoad m userId with
  | none => .ok (assocStore m userId (.entry ⟨1, limit, now + window⟩))
  | some v =>
    match asEntry v with
    | .error e => .error e
    | .ok entry =>
      if now > entry.resetTime then
        .ok (assocStore m userId (.entry ⟨1, limit, now + window⟩))
      else
        .ok (assocStore m userId (.entry ⟨entry.count + 1, entry.limit, entry.resetTime⟩))

/-- `CleanupExpiredEntries` from hybrid_repository.go: `Range` over the
table, asserting each value is a `*CacheEntry` and deleting those with
`now > resetTime`. -/
def cleanupExpiredEntries (m : LocalCache) (now : Int) : Except RateLimitError LocalCache :=
  match m with
  | [] => .ok []
  | (k, v) :: rest =>
    match asEntry v with
    | .error e => .error e
    | .ok entry =>
      match cleanupExpiredEntries rest now with
      | .error e => .error e
      | .ok rest2 =>
        if now > entry.resetTime then .ok rest2 else .ok ((k, v) :: rest2)

/-- A Redis value for one key: the integer counter plus its expiry
deadline in absolute nanoseconds (`none` means the key has no expiry and
the backend TTL reply is the negative no-expiry sentinel). -/
structure RedisEntry where
  value : Int
  expireAt : Option Int
deriving Repr, DecidableEq

/-- The shared Redis keyspace. -/
abbrev RedisState := List (String × RedisEntry)

/-- Lazy expiry on access, as Redis behaves: a key whose deadline has
been reached is gone for every command that touches it. -/
def liveEntry (st : RedisState) (now : Int) (key : String) : Option RedisEntry :=
  match assocLoad st key with
  | none => none
  | some e =>
    match e.expireAt with
    | none => some e
    | some deadline => if deadline ≤ now then none else some e

/-- `SETNX key 0` with expiry `window` (pipeline command 1 of the
adapter): creates the key at 0 with a fresh deadline only when absent. -/
def setNX (st : RedisState) (now window : Int) (key : String) : RedisState :=
  match liveEntry st now key with
  | some _ => st
  | none => assocStore st key ⟨0, some (now + window)⟩

/-- `INCR key` (pipeline command 2): increments and returns the new
value; a missing key is created at 1 with **no expiry**, per Redis. -/
def incrCmd (st : RedisState) (now : Int) (key : String) : Int × RedisState :=
  match liveEntry st now key with
  | none => (1, assocStore st key ⟨1, none⟩)
  | some e => (e.value + 1, assocStore st key ⟨e.value + 1, e.expireAt⟩)

/-- `TTL key` (pipeline command 3): remaining time for a live key with an
expiry, `-1` for a live key without one, `-2` for a missing key — the
negative sentinels the Go client hands back as negative durations. -/
def ttlCmd (st : RedisState) (now : Int) (key : String) : Int :=
  match liveEntry st now key with
  | none => -2
  | some e =>
    match e.expireAt with
    | none => -1
    | some deadline => deadline - now

/-- Key derivation `fmt.Sprintf("rate_limit:%s", userId)` from
RedisRateLimitRepository. -/
def redisKey (userId : String) : String := "rate_limit:" ++ userId

/-- `RedisRateLimitRepository.RateLimitWithDetail` success path: run the
pipeline `SETNX; INCR; TTL`, then return `remaining = max 0 (limit -
currentCount)` together with the TTL reply. Note the first component is
the clamped *remaining*, not the counter value. -/
def redisRateLimitWithDetail (st : RedisState) (now window : Int) (userId : String)
    (limit : Int) : Int × Int × RedisState :=
  let key := redisKey userId
  let st1 := setNX st now window key
  let r := incrCmd st1 now key
  let ttl := ttlCmd r.2 now key
  let remaining := if limit - r.1 < 0 then 0 else limit - r.1
  (remaining, ttl, r.2)

/-- The whole mutable state seen by one coordinator process: the shared
Redis keyspace and the process-local cache table. -/
structure SysState where
  redis : RedisState
  localCache : LocalCache
deriving Repr, DecidableEq

/-- `HybridRateLimitRepository.RateLimitWithDetail`: fast-path denial
from the local cache (re-reading the entry to report its remaining TTL);
otherwise the Redis round trip, whose failure is returned to the caller
as-is, and whose success is followed by `incrementLocalCache` (the Go
comment reads "Always increment local cache counter since each call
represents a request"). -/
def hybridRateLimitWithDetail (sys : SysState) (now window : Int) (storeUp : Bool)
    (userId : String) (limit : Int) :
    Except RateLimitError (Int × Int) × SysState :=
  match checkLocalCache sys.localCache now userId limit with
  | .error e => (.error e, sys)
  | .ok false =>
    match assocLoad sys.localCache userId with
    | none => (.ok (0, 0), sys)
    | some v =>
      match asEntry v with
      | .error e => (.error e, sys)
      | .ok entry =>
        if entry.resetTime > now then (.ok (0, entry.resetTime - now), sys)
        else (.ok (0, 0), sys)
  | .ok true =>
    if storeUp then
      let r := redisRateLimitWithDetail sys.redis now window userId limit
      match incrementLocalCache sys.localCache now window userId limit with
      | .error e => (.error e, ⟨r.2.2, sys.localCache⟩)
      | .ok lc => (.ok (r.1, r.2.1), ⟨r.2.2, lc⟩)
    else (.error .storeUnavailable, sys)

/-- `HybridRateLimitRepository.RateLimit` (boolean path): fast-path
denial; on Redis success `updateLocalCacheWithRedisValues` is called with
the value Redis returned (the clamped remaining, which the Go code names
`currentCount`) and the call returns `currentCount <= limit`; on Redis
failure the local counter is incremented and the decision is
`count < limit` read back from the table. -/
def hybridRateLimit (sys : SysState) (now window : Int) (storeUp : Bool)
    (userId : String) (limit : Int) : Except RateLimitError Bool × SysState :=
  match checkLocalCache sys.localCache now userId limit with
  | .error e => (.error e, sys)
  | .ok false => (.ok false, sys)
  | .ok true =>
    if storeUp then
      let r := redisRateLimitWithDetail sys.redis now window userId limit
      match updateLocalCacheWithRedisValues sys.localCache now userId limit r.1 r.2.1 with
      | .error e => (.error e, ⟨r.2.2, sys.localCache⟩)
      | .ok lc => (.ok (decide (r.1 ≤ limit)), ⟨r.2.2, lc⟩)
    else
      match incrementLocalCache sys.localCache now window userId limit with
      | .error e => (.error e, sys)
      | .ok lc =>
        match assocLoad lc userId with
        | none => (.ok true, ⟨sys.redis, lc⟩)
        | some v =>
          match asEntry v with
          | .error e => (.error e, ⟨sys.redis, lc⟩)
          | .ok entry => (.ok (decide (entry.count < limit)), ⟨sys.redis, lc⟩)

/-- `CheckRateLimitWithDetailResponse` from the application layer. -/
structure CheckRateLimitWithDetailResponse where
  remaining : Int
  resetTime : Int
  allowed : Bool
deriving Repr, DecidableEq

/-- `CheckRateLimitWithDetailCommandHandler.Handle`: validation of
subject and limit before any state is touched, then the repository call,
then `allowed := remaining > 0`. -/
def checkRateLimitWithDetailHandle (sys : SysState) (now window : Int) (storeUp : Bool)
    (userId : String) (limit : Int) :
    Except RateLimitError CheckRateLimitWithDetailResponse × SysState :=
  if userId = "" then (.error .validation, sys)
  else if limit ≤ 0 then (.error .validation, sys)
  else
    match hybridRateLimitWithDetail sys now window storeUp userId limit with
    | (.error e, sys1) => (.error e, sys1)
    | (.ok rr, sys1) => (.ok ⟨rr.1, rr.2, decide (rr.1 > 0)⟩, sys1)

/-- `CheckRateLimitCommandHandler.Handle` (part_004): the same
validation, then the boolean repository call. -/
def checkRateLimitHandle (sys : SysState) (now window : Int) (storeUp : Bool)
    (userId : String) (limit : Int) : Except RateLimitError Bool × SysState :=
  if userId = "" then (.error .validation, sys)
  else if limit ≤ 0 then (.error .validation, sys)
  else hybridRateLimit sys now window storeUp userId limit

/-- The empty initial state: no Redis keys, no local entries. -/
def initialState : SysState := ⟨[], []⟩

/-- One minute in nanoseconds — the `windowSize` both repositories are
constructed with (`time.Minute`). -/
def defaultWindow : Int := 60000000000

instance exceptDecEq {ε α : Type} [DecidableEq ε] [DecidableEq α] :
    DecidableEq (Except ε α) := fun x y =>
  match x, y with
  | .error a, .error b =>
    if h : a = b then isTrue (by rw [h])
    else isFalse (by intro hx; cases hx; exact h rfl)
  | .error _, .ok _ => isFalse (by intro hx; cases hx)
  | .ok _, .error _ => isFalse (by intro hx; cases hx)
  | .ok a, .ok b =>
    if h : a = b then isTrue (by rw [h])
    else isFalse (by intro hx; cases hx; exact h rfl)

theorem assocLoad_assocStore_self {κ α : Type} [DecidableEq κ]
    (m : List (κ × α)) (key : κ) (v : α) :
    assocLoad (assocStore m key v) key = some v := by
  induction m with
  | nil => simp [assocStore, assocLoad]
  | cons p rest ih =>
    obtain ⟨k, w⟩ := p
    by_cases h : k = key
    · simp [assocStore, assocLoad, h]
    · simp [assocStore, assocLoad, h, ih]

theorem assocLoad_mem {κ α : Type} [DecidableEq κ] {m : List (κ × α)} {key : κ} {v : α}
    (h : assocLoad m key = some v) : (key, v) ∈ m := by
  induction m with
  | nil => simp [assocLoad] at h
  | cons p rest ih =>
    obtain ⟨k, w⟩ := p
    by_cases hk : k = key
    · subst hk
      simp [assocLoad] at h
      simp [h]
    · simp [assocLoad, hk] at h
      exact List.mem_cons_of_mem _ (ih h)

/-- Inversion of a fast-path denial: `checkLocalCache` reports `false`
exactly when the subject has a live entry (`now ≤ resetTime`) whose count
has reached the limit. -/
theorem checkLocalCache_ok_false {m : LocalCache} {now : Int} {userId : String} {limit : Int}
    (h : checkLocalCache m now userId limit = .ok false) :
    ∃ e, assocLoad m userId = some (.entry e) ∧ now ≤ e.resetTime ∧ limit ≤ e.count := by
  unfold checkLocalCache at h
  cases hl : assocLoad m userId with
  | none => rw [hl] at h; simp at h
  | some v =>
    rw [hl] at h
    cases v with
    | other => simp [asEntry] at h
    | entry e =>
      simp only [asEntry] at h
      by_cases ht : now > e.resetTime
      · simp [ht] at h
      · simp [ht] at h
        exact ⟨e, rfl, le_of_not_lt ht, h⟩

/-- A fast-path denial returns `remaining = 0` together with the entry's
remaining window (or `0` once the window boundary is reached) and leaves
the whole system state untouched. -/
theorem hybrid_detail_denial_eq (sys : SysState) (now window : Int) (storeUp : Bool)
    (userId : String) (limit : Int) (e : CacheEntry)
    (h : checkLocalCache sys.localCache now userId limit = .ok false)
    (hload : assocLoad sys.localCache userId = some (.entry e)) :
    hybridRateLimitWithDetail sys now window storeUp userId limit =
      (.ok (0, if e.resetTime > now then e.resetTime - now else 0), sys) := by
  unfold hybridRateLimitWithDetail
  rw [h, hload]
  by_cases ht : e.resetTime > now <;> simp [asEntry, ht]

/-- Claim C1 (evaluation at the failing input): from the empty state with
the Store reachable, the very first `CheckAndConsume("u", 1)` on the
detail chain — the chain serving `POST /rate-limit` — is **denied**: the
handler computes `allowed := remaining > 0` with
`remaining = max 0 (limit - count)`, so the call whose Store count is
`1 ≤ limit = 1` yields `allowed = false, remaining = 0`, contradicting
the claim that the first `L` calls are allowed with `allowed ⟺ count ≤
L`.  By contrast the boolean path of the very same repository allows this
call, witnessing the internal inconsistency. -/
theorem c1_first_call_denied_at_limit_one :
    checkRateLimitWithDetailHandle initialState 0 defaultWindow true "u" 1 =
      (.ok ⟨0, defaultWindow, false⟩,
       ⟨[("rate_limit:u", ⟨1, some defaultWindow⟩)],
        [("u", .entry ⟨1, 1, defaultWindow⟩)]⟩) ∧
    (checkRateLimitHandle initialState 0 defaultWindow true "u" 1).1 = .ok true := by
  decide

/-- Claim C2 (evaluation at the failing input): with the Store
unreachable, `RateLimitWithDetail` on the hybrid repository returns the
Store error to the caller instead of producing a degraded local decision,
so the error escapes the handler (and surfaces as HTTP 500).  The boolean
path of the same repository degrades gracefully on the very same input,
producing a decision. -/
theorem c2_store_error_escapes_detail_path :
    checkRateLimitWithDetailHandle initialState 0 defaultWindow false "u" 5 =
      (.error .storeUnavailable, initialState) ∧
    (checkRateLimitHandle initialState 0 defaultWindow false "u" 5).1 = .ok true := by
  decide

/-- Claim C3 (evaluation at the failing input): the Store counter for
`"u"` is already at 2 (e.g. written by a peer instance) and the local
cache is empty.  The successful Store increment reports count 3, but the
local entry after the call holds count **1** — `RateLimitWithDetail`
calls `incrementLocalCache`, not an overwrite with the authoritative
Store values — so the local tier is not resynchronised to the Store's
figure (and its window is a fresh local `now + window`, not the Store's
TTL). -/
theorem c3_success_path_increments_instead_of_overwriting :
    checkRateLimitWithDetailHandle ⟨[("rate_limit:u", ⟨2, some 30000000000⟩)], []⟩
        0 defaultWindow true "u" 5 =
      (.ok ⟨2, 30000000000, true⟩,
       ⟨[("rate_limit:u", ⟨3, some 30000000000⟩)],
        [("u", .entry ⟨1, 5, defaultWindow⟩)]⟩) := by
  decide

/-- Claim C4: an empty subject or a non-positive limit is rejected with a
validation error by both command handlers, before any state is read or
written — the returned state is exactly the input state, for every input
state, Store reachability and limit. -/
theorem c4_validation_rejects_without_touching_state (sys : SysState) (now window : Int)
    (storeUp : Bool) (userId : String) (limit : Int)
    (h : userId = "" ∨ limit ≤ 0) :
    checkRateLimitWithDetailHandle sys now window storeUp userId limit =
      (.error .validation, sys) ∧
    checkRateLimitHandle sys now window storeUp userId limit = (.error .validation, sys) := by
  unfold checkRateLimitWithDetailHandle checkRateLimitHandle
  rcases h with h | h
  · simp [h]
  · by_cases hu : userId = "" <;> simp [hu, h]

theorem c4_validation_witness :
    checkRateLimitWithDetailHandle initialState 0 defaultWindow true "" 5 =
      (.error .validation, initialState) ∧
    checkRateLimitHandle initialState 0 defaultWindow true "" 5 =
      (.error .validation, initialState) :=
  c4_validation_rejects_without_touching_state initialState 0 defaultWindow true "" 5
    (Or.inl rfl)

/-- Claim C9: whenever the local fast-path check denies, the call is
observationally a pure read — the returned state (both Redis keyspace and
local table) is exactly the input state, independent of Store
reachability, and the reported decision is `remaining = 0`. -/
theorem c9_fast_path_denial_is_pure (sys : SysState) (now window : Int) (storeUp : Bool)
    (userId : String) (limit : Int)
    (h : checkLocalCache sys.localCache now userId limit = .ok false) :
    (hybridRateLimitWithDetail sys now window storeUp userId limit).2 = sys ∧
    ∃ t, (hybridRateLimitWithDetail sys now window storeUp userId limit).1 = .ok (0, t) := by
  obtain ⟨e, hload, hreset, hcount⟩ := checkLocalCache_ok_false h
  rw [hybrid_detail_denial_eq sys now window storeUp userId limit e h hload]
  exact ⟨rfl, _, rfl⟩

theorem c9_fast_path_denial_witness :
    (hybridRateLimitWithDetail ⟨[], [("u", .entry ⟨3, 3, 100⟩)]⟩ 50 defaultWindow true
        "u" 3).2 = ⟨[], [("u", .entry ⟨3, 3, 100⟩)]⟩ ∧
    ∃ t, (hybridRateLimitWithDetail ⟨[], [("u", .entry ⟨3, 3, 100⟩)]⟩ 50 defaultWindow true
        "u" 3).1 = .ok (0, t) :=
  c9_fast_path_denial_is_pure ⟨[], [("u", .entry ⟨3, 3, 100⟩)]⟩ 50 defaultWindow true "u" 3
    (by decide)

/-- Claim C5 (counterexample to the boundary clause): the claim states
that an entry with `now ≥ resetTimeAbsolute` is treated as absent by the
fast-path check.  At `now = resetTime` (with `count ≥ limit`) the code
still uses the entry and denies — `checkLocalCache` treats an entry as
expired only when `now > resetTime` — whereas an absent entry makes the
check allow. -/
theorem c5_boundary_counterexample :
    checkLocalCache [("u", .entry ⟨1, 1, 100⟩)] 100 "u" 1 = .ok false ∧
    checkLocalCache [] 100 "u" 1 = .ok true := by
  decide

/-- Claim C5 (amended): for a subject with a live local entry
(`now ≤ resetTimeAbsolute`, i.e. including the exact boundary instant)
whose count has reached the limit, `CheckAndConsume` returns
`allowed = false, remaining = 0, resetIn = resetTimeAbsolute - now`
without touching any state; an entry is treated as absent by the check
only when `now > resetTimeAbsolute` (strictly). -/
theorem c5_fast_path_denial_amended (sys : SysState) (now window : Int) (storeUp : Bool)
    (userId : String) (limit : Int) (e : CacheEntry)
    (hload : assocLoad sys.localCache userId = some (.entry e)) :
    (userId ≠ "" → 0 < limit → now ≤ e.resetTime → limit ≤ e.count →
      checkRateLimitWithDetailHandle sys now window storeUp userId limit =
        (.ok ⟨0, e.resetTime - now, false⟩, sys)) ∧
    (e.resetTime < now → checkLocalCache sys.localCache now userId limit = .ok true) := by
  constructor
  · intro hu hl ht hc
    have hfalse : checkLocalCache sys.localCache now userId limit = .ok false := by
      unfold checkLocalCache
      rw [hload]
      simp only [asEntry]
      rw [if_neg (not_lt.mpr ht)]
      simp [not_lt.mpr hc]
    unfold checkRateLimitWithDetailHandle
    rw [hybrid_detail_denial_eq sys now window storeUp userId limit e hfalse hload]
    rcases lt_or_eq_of_le ht with ht2 | ht2
    · simp [hu, not_le.mpr hl, ht2]
    · simp [hu, not_le.mpr hl, ← ht2]
  · intro hexp
    unfold checkLocalCache
    rw [hload]
    simp [asEntry, hexp]

theorem c5_fast_path_denial_witness :
    checkRateLimitWithDetailHandle ⟨[], [("u", .entry ⟨2, 2, 100⟩)]⟩ 40 defaultWindow true
        "u" 2 = (.ok ⟨0, 100 - 40, false⟩, ⟨[], [("u", .entry ⟨2, 2, 100⟩)]⟩) :=
  (c5_fast_path_denial_amended ⟨[], [("u", .entry ⟨2, 2, 100⟩)]⟩ 40 defaultWindow true
      "u" 2 ⟨2, 2, 100⟩ (by decide)).1 (by decide) (by decide) (by decide) (by decide)

/-- Stated from the spec's words (§4.1 step 3), for comparison with the
code: in degraded mode, a missing or expired entry becomes
`{count = 1, fresh full window}`, and otherwise the count grows by
exactly 1 with the window and stored limit untouched. -/
def specDegradedEntry (old : Option CacheEntry) (now window limit : Int) : CacheEntry :=
  match old with
  | none => ⟨1, limit, now + window⟩
  | some e =>
    if now > e.resetTime then ⟨1, limit, now + window⟩
    else ⟨e.count + 1, e.limit, e.resetTime⟩

/-- Claim C6: when the Store call fails, the boolean path falls back to
local counting: the subject's entry afterwards is exactly the one the
spec prescribes (`specDegradedEntry`), Redis is untouched, and the
decision is derived solely from the resulting local count against the
limit (`count < limit`). -/
theorem c6_degraded_mode_local_counting (sys : SysState) (now window : Int)
    (userId : String) (limit : Int) (old : Option CacheEntry)
    (hload : assocLoad sys.localCache userId = Option.map StoredValue.entry old)
    (hpass : checkLocalCache sys.localCache now userId limit = .ok true) :
    hybridRateLimit sys now window false userId limit =
      (.ok (decide ((specDegradedEntry old now window limit).count < limit)),
       ⟨sys.redis,
        assocStore sys.localCache userId
          (.entry (specDegradedEntry old now window limit))⟩) := by
  have hinc : incrementLocalCache sys.localCache now window userId limit =
      .ok (assocStore sys.localCache userId
        (.entry (specDegradedEntry old now window limit))) := by
    unfold incrementLocalCache
    cases old with
    | none =>
      have hl : assocLoad sys.localCache userId = none := by simpa using hload
      rw [hl]
      simp [specDegradedEntry]
    | some e =>
      have hl : assocLoad sys.localCache userId = some (StoredValue.entry e) := by
        simpa using hload
      rw [hl]
      by_cases ht : now > e.resetTime
      · simp [asEntry, specDegradedEntry, ht]
      · simp [asEntry, specDegradedEntry, ht]
  unfold hybridRateLimit
  rw [hpass, hinc]
  simp [asEntry, assocLoad_assocStore_self]

theorem c6_degraded_mode_witness :
    hybridRateLimit ⟨[], [("u", .entry ⟨2, 5, 500⟩)]⟩ 100 defaultWindow false "u" 5 =
      (.ok (decide ((specDegradedEntry (some ⟨2, 5, 500⟩) 100 defaultWindow 5).count < 5)),
       ⟨[], assocStore [("u", .entry ⟨2, 5, 500⟩)] "u"
          (.entry (specDegradedEntry (some ⟨2, 5, 500⟩) 100 defaultWindow 5))⟩) :=
  c6_degraded_mode_local_counting ⟨[], [("u", .entry ⟨2, 5, 500⟩)]⟩ 100 defaultWindow
    "u" 5 (some ⟨2, 5, 500⟩) (by decide) (by decide)

theorem liveEntry_some_spec {st : RedisState} {now : Int} {key : String} {e : RedisEntry}
    (h : liveEntry st now key = some e) :
    assocLoad st key = some e ∧ (e.expireAt = none ∨ ∃ d, e.expireAt = some d ∧ now < d) := by
  unfold liveEntry at h
  cases hl : assocLoad st key with
  | none => rw [hl] at h; cases h
  | some e0 =>
    rw [hl] at h
    have h2 : (match e0.expireAt with
        | none => some e0
        | some deadline => if deadline ≤ now then none else some e0) = some e := h
    clear h
    cases hx : e0.expireAt with
    | none =>
      rw [hx] at h2
      cases h2
      exact ⟨rfl, Or.inl hx⟩
    | some d =>
      rw [hx] at h2
      have h3 : (if d ≤ now then none else some e0) = some e := h2
      clear h2
      by_cases hd : d ≤ now
      · rw [if_pos hd] at h3; cases h3
      · rw [if_neg hd] at h3
        cases h3
        exact ⟨rfl, Or.inr ⟨d, hx, lt_of_not_le hd⟩⟩

/-- After the adapter's pipeline `SETNX; INCR` (with a positive window),
the key is live: either it carries a deadline strictly in the future, or
it is a pre-existing key without one. -/
theorem pipeline_result_live (st : RedisState) (now window : Int) (key : String)
    (hw : 0 < window) :
    ∃ e2, liveEntry (incrCmd (setNX st now window key) now key).2 now key = some e2 ∧
      (e2.expireAt = none ∨ ∃ d, e2.expireAt = some d ∧ now < d) := by
  cases h1 : liveEntry st now key with
  | none =>
    have hset : setNX st now window key = assocStore st key ⟨0, some (now + window)⟩ := by
      unfold setNX; rw [h1]
    have hlive1 : liveEntry (assocStore st key ⟨0, some (now + window)⟩) now key =
        some ⟨0, some (now + window)⟩ := by
      unfold liveEntry
      rw [assocLoad_assocStore_self]
      simp [show ¬ now + window ≤ now by linarith]
    have hincr : incrCmd (setNX st now window key) now key =
        ((0 : Int) + 1, assocStore (assocStore st key ⟨0, some (now + window)⟩) key
          ⟨(0 : Int) + 1, some (now + window)⟩) := by
      unfold incrCmd
      rw [hset, hlive1]
    refine ⟨⟨(0 : Int) + 1, some (now + window)⟩, ?_, Or.inr ⟨now + window, rfl, by linarith⟩⟩
    rw [hincr]
    unfold liveEntry
    rw [assocLoad_assocStore_self]
    simp [show ¬ now + window ≤ now by linarith]
  | some e =>
    obtain ⟨hl, hx⟩ := liveEntry_some_spec h1
    have hset : setNX st now window key = st := by
      unfold setNX; rw [h1]
    have hincr : incrCmd (setNX st now window key) now key =
        (e.value + 1, assocStore st key ⟨e.value + 1, e.expireAt⟩) := by
      unfold incrCmd
      rw [hset, h1]
    refine ⟨⟨e.value + 1, e.expireAt⟩, ?_, by simpa using hx⟩
    rw [hincr]
    unfold liveEntry
    rw [assocLoad_assocStore_self]
    rcases hx with hnone | ⟨d, hd, hlt⟩
    · simp [hnone]
    · simp [hd, not_le.mpr hlt]

/-- The Redis adapter's reply always carries a non-negative remaining,
and a reset duration that is either non-negative or the no-expiry
sentinel `-1`. -/
theorem redis_detail_bounds (st : RedisState) (now window : Int) (userId : String)
    (limit : Int) (hw : 0 < window) :
    0 ≤ (redisRateLimitWithDetail st now window userId limit).1 ∧
    (0 ≤ (redisRateLimitWithDetail st now window userId limit).2.1 ∨
      (redisRateLimitWithDetail st now window userId limit).2.1 = -1) := by
  obtain ⟨e2, hlive, hx⟩ := pipeline_result_live st now window (redisKey userId) hw
  unfold redisRateLimitWithDetail
  constructor
  · by_cases h : limit - (incrCmd (setNX st now window (redisKey userId)) now
        (redisKey userId)).1 < 0
    · simp [h]
    · simp only [h, if_false]
      linarith [not_lt.mp h]
  · simp only []
    unfold ttlCmd
    rw [hlive]
    rcases hx with hnone | ⟨d, hd, hlt⟩
    · right; simp [hnone]
    · left; simp [hd]; linarith

/-- When the local check passes and the Store is reachable, the detail
path returns the adapter's (remaining, ttl) pair and installs the
incremented local entry. -/
theorem hybrid_detail_pass_eq (sys : SysState) (now window : Int) (userId : String)
    (limit : Int) (h : checkLocalCache sys.localCache now userId limit = .ok true) :
    hybridRateLimitWithDetail sys now window true userId limit =
      (match incrementLocalCache sys.localCache now window userId limit with
       | .error e =>
         (.error e,
          ⟨(redisRateLimitWithDetail sys.redis now window userId limit).2.2, sys.localCache⟩)
       | .ok lc =>
         (.ok ((redisRateLimitWithDetail sys.redis now window userId limit).1,
            (redisRateLimitWithDetail sys.redis now window userId limit).2.1),
          ⟨(redisRateLimitWithDetail sys.redis now window userId limit).2.2, lc⟩)) := by
  unfold hybridRateLimitWithDetail
  rw [h]
  rfl

/-- When the local check passes and the Store is unreachable, the detail
path surfaces the Store error and leaves all state unchanged. -/
theorem hybrid_detail_pass_storeDown_eq (sys : SysState) (now window : Int)
    (userId : String) (limit : Int)
    (h : checkLocalCache sys.localCache now userId limit = .ok true) :
    hybridRateLimitWithDetail sys now window false userId limit =
      (.error .storeUnavailable, sys) := by
  unfold hybridRateLimitWithDetail
  rw [h]
  rfl

/-- Any successful (remaining, resetIn) pair produced by the detail path
has non-negative remaining, and a resetIn that is non-negative unless it
is the no-expiry sentinel `-1`. -/
theorem hybrid_detail_ok_bounds (sys : SysState) (now window : Int) (storeUp : Bool)
    (userId : String) (limit : Int) (r : Int × Int) (hw : 0 < window)
    (h : (hybridRateLimitWithDetail sys now window storeUp userId limit).1 = .ok r) :
    0 ≤ r.1 ∧ (0 ≤ r.2 ∨ r.2 = -1) := by
  cases hc : checkLocalCache sys.localCache now userId limit with
  | error e =>
    exfalso
    unfold hybridRateLimitWithDetail at h
    rw [hc] at h
    simp at h
  | ok pass =>
    cases pass with
    | false =>
      obtain ⟨e, hload, hreset, hcount⟩ := checkLocalCache_ok_false hc
      rw [hybrid_detail_denial_eq sys now window storeUp userId limit e hc hload] at h
      have h2 : (Except.ok ((0 : Int), if e.resetTime > now then e.resetTime - now else 0) :
          Except RateLimitError (Int × Int)) = .ok r := h
      cases h2
      refine ⟨le_refl 0, Or.inl ?_⟩
      by_cases ht : e.resetTime > now
      · rw [if_pos ht]
        show (0 : Int) ≤ e.resetTime - now
        linarith
      · rw [if_neg ht]
    | true =>
      cases storeUp with
      | false =>
        rw [hybrid_detail_pass_storeDown_eq sys now window userId limit hc] at h
        simp at h
      | true =>
        rw [hybrid_detail_pass_eq sys now window userId limit hc] at h
        cases hi : incrementLocalCache sys.localCache now window userId limit with
        | error e => rw [hi] at h; simp at h
        | ok lc =>
          rw [hi] at h
          have h2 : (Except.ok ((redisRateLimitWithDetail sys.redis now window userId limit).1,
              (redisRateLimitWithDetail sys.redis now window userId limit).2.1) :
              Except RateLimitError (Int × Int)) = .ok r := h
          cases h2
          exact redis_detail_bounds sys.redis now window userId limit hw

/-- Claim C7 (amended): every successful decision of the detail chain
satisfies `remaining ≥ 0`, and `resetIn ≥ 0` **except** that a key the
backend reports as having no expiry yields the pass-through sentinel
`resetIn = -1`. -/
theorem c7_decision_bounds_amended (sys : SysState) (now window : Int) (storeUp : Bool)
    (userId : String) (limit : Int) (resp : CheckRateLimitWithDetailResponse)
    (sys1 : SysState) (hw : 0 < window)
    (h : checkRateLimitWithDetailHandle sys now window storeUp userId limit =
      (.ok resp, sys1)) :
    0 ≤ resp.remaining ∧ (0 ≤ resp.resetTime ∨ resp.resetTime = -1) := by
  unfold checkRateLimitWithDetailHandle at h
  by_cases hu : userId = ""
  · rw [if_pos hu] at h; simp at h
  · rw [if_neg hu] at h
    by_cases hl : limit ≤ 0
    · rw [if_pos hl] at h; simp at h
    · rw [if_neg hl] at h
      cases hh : hybridRateLimitWithDetail sys now window storeUp userId limit with
      | mk fst snd =>
        rw [hh] at h
        cases fst with
        | error e => simp at h
        | ok rr =>
          have h2 : ((Except.ok ⟨rr.1, rr.2, decide (rr.1 > 0)⟩ :
              Except RateLimitError CheckRateLimitWithDetailResponse), snd) =
              (.ok resp, sys1) := h
          have h3 : (Except.ok (⟨rr.1, rr.2, decide (rr.1 > 0)⟩ :
              CheckRateLimitWithDetailResponse) :
              Except RateLimitError CheckRateLimitWithDetailResponse) = .ok resp :=
            congrArg Prod.fst h2
          cases h3
          have hb := hybrid_detail_ok_bounds sys now window storeUp userId limit rr hw
            (by rw [hh])
          exact hb

theorem c7_decision_bounds_witness :
    (0 : Int) ≤ (⟨4, defaultWindow, true⟩ : CheckRateLimitWithDetailResponse).remaining ∧
    ((0 : Int) ≤ (⟨4, defaultWindow, true⟩ : CheckRateLimitWithDetailResponse).resetTime ∨
      (⟨4, defaultWindow, true⟩ : CheckRateLimitWithDetailResponse).resetTime = -1) :=
  c7_decision_bounds_amended initialState 0 defaultWindow true "u" 5
    ⟨4, defaultWindow, true⟩
    ⟨[("rate_limit:u", ⟨1, some defaultWindow⟩)], [("u", .entry ⟨1, 5, defaultWindow⟩)]⟩
    (by decide) (by decide)

/-- Claim C7 (counterexample to the claim as stated): when the backend
reports the counter key as having no expiry, its `TTL` sentinel is passed
straight through, so the successful decision carries `resetIn = -1 < 0`,
refuting `resetIn ≥ 0` "including ttl values the backend may report for a
key without an expiry". -/
theorem c7_no_expiry_negative_resetIn :
    (checkRateLimitWithDetailHandle ⟨[("rate_limit:u", ⟨3, none⟩)], []⟩ 0 defaultWindow
        true "u" 5).1 = .ok ⟨1, -1, true⟩ ∧ ((-1 : Int) < 0) := by
  decide

/-- One operation on the shared state, as issued by the repository's
public surface: the two request paths and the sweeper
(`CleanupExpiredEntries`). -/
inductive CacheOp
  | detailCall (now window : Int) (storeUp : Bool) (userId : String) (limit : Int)
  | boolCall (now window : Int) (storeUp : Bool) (userId : String) (limit : Int)
  | sweep (now : Int)

/-- The state after one operation (a sweep whose scan hits a foreign
value panics mid-`Range`; the model then keeps the pre-state, which by
the invariant below never actually happens). -/
def applyOp (sys : SysState) : CacheOp → SysState
  | .detailCall now window storeUp userId limit =>
    (hybridRateLimitWithDetail sys now window storeUp userId limit).2
  | .boolCall now window storeUp userId limit =>
    (hybridRateLimit sys now window storeUp userId limit).2
  | .sweep now =>
    match cleanupExpiredEntries sys.localCache now with
    | .error _ => sys
    | .ok lc => ⟨sys.redis, lc⟩

def runOps : SysState → List CacheOp → SysState
  | sys, [] => sys
  | sys, op :: rest => runOps (applyOp sys op) rest

/-- Every value stored in the local table is a genuine `*CacheEntry`. -/
def WFCache (m : LocalCache) : Prop := ∀ p ∈ m, ∃ e, p.2 = StoredValue.entry e

theorem wfCache_assocStore (m : LocalCache) (key : String) (e : CacheEntry)
    (h : WFCache m) : WFCache (assocStore m key (.entry e)) := by
  induction m with
  | nil =>
    intro p hp
    simp [assocStore] at hp
    exact ⟨e, by rw [hp]⟩
  | cons q rest ih =>
    obtain ⟨k0, v0⟩ := q
    intro p hp
    by_cases hk : k0 = key
    · simp only [assocStore, if_pos hk] at hp
      rcases List.mem_cons.mp hp with hp | hp
      · exact ⟨e, by rw [hp]⟩
      · exact h p (List.mem_cons_of_mem _ hp)
    · simp only [assocStore, if_neg hk] at hp
      rcases List.mem_cons.mp hp with hp | hp
      · exact h p (by rw [hp]; exact List.mem_cons_self _ _)
      · exact ih (fun q hq => h q (List.mem_cons_of_mem _ hq)) p hp

theorem asEntry_ok_of_wf {m : LocalCache} {key : String} {v : StoredValue}
    (h : WFCache m) (hl : assocLoad m key = some v) :
    ∃ e, v = .entry e ∧ asEntry v = .ok e := by
  obtain ⟨e, he⟩ := h (key, v) (assocLoad_mem hl)
  have he2 : v = .entry e := he
  exact ⟨e, he2, by rw [he2]; rfl⟩

theorem checkLocalCache_ok_of_wf {m : LocalCache} (now : Int) (userId : String)
    (limit : Int) (h : WFCache m) :
    ∃ b, checkLocalCache m now userId limit = .ok b := by
  cases hl : assocLoad m userId with
  | none => exact ⟨true, by unfold checkLocalCache; rw [hl]⟩
  | some v =>
    obtain ⟨e, he, -⟩ := asEntry_ok_of_wf h hl
    subst he
    unfold checkLocalCache
    rw [hl]
    simp only [asEntry]
    by_cases ht : now > e.resetTime
    · exact ⟨true, by rw [if_pos ht]⟩
    · exact ⟨_, by rw [if_neg ht]⟩

theorem incrementLocalCache_ok_wf {m : LocalCache} (now window : Int) (userId : String)
    (limit : Int) (h : WFCache m) :
    ∃ lc, incrementLocalCache m now window userId limit = .ok lc ∧ WFCache lc := by
  cases hl : assocLoad m userId with
  | none =>
    refine ⟨assocStore m userId (.entry ⟨1, limit, now + window⟩), ?_,
      wfCache_assocStore m userId ⟨1, limit, now + window⟩ h⟩
    unfold incrementLocalCache
    rw [hl]
  | some v =>
    obtain ⟨e, he, -⟩ := asEntry_ok_of_wf h hl
    subst he
    unfold incrementLocalCache
    rw [hl]
    simp only [asEntry]
    by_cases ht : now > e.resetTime
    · rw [if_pos ht]; exact ⟨_, rfl, wfCache_assocStore m userId _ h⟩
    · rw [if_neg ht]; exact ⟨_, rfl, wfCache_assocStore m userId _ h⟩

theorem updateLocalCache_ok_wf {m : LocalCache} (now : Int) (userId : String)
    (limit currentCount ttl : Int) (h : WFCache m) :
    ∃ lc, updateLocalCacheWithRedisValues m now userId limit currentCount ttl = .ok lc ∧
      WFCache lc := by
  cases hl : assocLoad m userId with
  | none =>
    refine ⟨assocStore m userId (.entry ⟨currentCount, limit, now + ttl⟩), ?_,
      wfCache_assocStore m userId ⟨currentCount, limit, now + ttl⟩ h⟩
    unfold updateLocalCacheWithRedisValues
    rw [hl]
  | some v =>
    obtain ⟨e, he, -⟩ := asEntry_ok_of_wf h hl
    subst he
    refine ⟨assocStore m userId (.entry ⟨currentCount, limit, now + ttl⟩), ?_,
      wfCache_assocStore m userId ⟨currentCount, limit, now + ttl⟩ h⟩
    unfold updateLocalCacheWithRedisValues
    rw [hl]
    simp only [asEntry]

theorem cleanup_ok_wf {m : LocalCache} (now : Int) (h : WFCache m) :
    ∃ lc, cleanupExpiredEntries m now = .ok lc ∧ WFCache lc := by
  induction m with
  | nil =>
    refine ⟨[], rfl, ?_⟩
    intro p hp
    cases hp
  | cons q rest ih =>
    obtain ⟨k, v⟩ := q
    obtain ⟨e, he⟩ := h (k, v) (List.mem_cons_self _ _)
    have he2 : v = .entry e := he
    obtain ⟨lc, hlc, hwf⟩ := ih (fun p hp => h p (List.mem_cons_of_mem _ hp))
    subst he2
    by_cases ht : now > e.resetTime
    · refine ⟨lc, ?_, hwf⟩
      unfold cleanupExpiredEntries
      simp only [asEntry]
      rw [hlc]
      show (if now > e.resetTime then (Except.ok lc : Except RateLimitError LocalCache)
          else .ok ((k, StoredValue.entry e) :: lc)) = Except.ok lc
      rw [if_pos ht]
    · refine ⟨(k, StoredValue.entry e) :: lc, ?_, ?_⟩
      · unfold cleanupExpiredEntries
        simp only [asEntry]
        rw [hlc]
        show (if now > e.resetTime then (Except.ok lc : Except RateLimitError LocalCache)
            else .ok ((k, StoredValue.entry e) :: lc)) =
          Except.ok ((k, StoredValue.entry e) :: lc)
        rw [if_neg ht]
      · intro p hp
        rcases List.mem_cons.mp hp with hp | hp
        · exact ⟨e, by rw [hp]⟩
        · exact hwf p hp

theorem hybrid_detail_preserves_wf (sys : SysState) (now window : Int) (storeUp : Bool)
    (userId : String) (limit : Int) (h : WFCache sys.localCache) :
    WFCache ((hybridRateLimitWithDetail sys now window storeUp userId limit).2).localCache := by
  obtain ⟨b, hc⟩ := checkLocalCache_ok_of_wf now userId limit h
  cases b with
  | false =>
    obtain ⟨e, hload, -, -⟩ := checkLocalCache_ok_false hc
    rw [hybrid_detail_denial_eq sys now window storeUp userId limit e hc hload]
    exact h
  | true =>
    cases storeUp with
    | false =>
      rw [hybrid_detail_pass_storeDown_eq sys now window userId limit hc]
      exact h
    | true =>
      rw [hybrid_detail_pass_eq sys now window userId limit hc]
      obtain ⟨lc, hlc, hwf⟩ := incrementLocalCache_ok_wf now window userId limit h
      rw [hlc]
      exact hwf

/-- The boolean path in degraded mode, given the increment's result:
read the entry back and decide `count < limit`. -/
theorem hybrid_bool_degraded_eq (sys : SysState) (now window : Int) (userId : String)
    (limit : Int) (lc : LocalCache)
    (h : checkLocalCache sys.localCache now userId limit = .ok true)
    (hinc : incrementLocalCache sys.localCache now window userId limit = .ok lc) :
    hybridRateLimit sys now window false userId limit =
      (match assocLoad lc userId with
       | none => (.ok true, ⟨sys.redis, lc⟩)
       | some v =>
         match asEntry v with
         | .error e => (.error e, ⟨sys.redis, lc⟩)
         | .ok entry => (.ok (decide (entry.count < limit)), ⟨sys.redis, lc⟩)) := by
  unfold hybridRateLimit
  rw [h, hinc]
  rfl

/-- The boolean path with the Store reachable, given the overwrite's
result: return `remaining ≤ limit` (the Go code compares the value Redis
returned, which is the clamped remaining, against the limit). -/
theorem hybrid_bool_pass_storeUp_eq (sys : SysState) (now window : Int) (userId : String)
    (limit : Int) (lc : LocalCache)
    (h : checkLocalCache sys.localCache now userId limit = .ok true)
    (hupd : updateLocalCacheWithRedisValues sys.localCache now userId limit
      (redisRateLimitWithDetail sys.redis now window userId limit).1
      (redisRateLimitWithDetail sys.redis now window userId limit).2.1 = .ok lc) :
    hybridRateLimit sys now window true userId limit =
      (.ok (decide ((redisRateLimitWithDetail sys.redis now window userId limit).1 ≤ limit)),
       ⟨(redisRateLimitWithDetail sys.redis now window userId limit).2.2, lc⟩) := by
  unfold hybridRateLimit
  rw [h]
  show (match updateLocalCacheWithRedisValues sys.localCache now userId limit
      (redisRateLimitWithDetail sys.redis now window userId limit).1
      (redisRateLimitWithDetail sys.redis now window userId limit).2.1 with
    | .error e =>
      ((Except.error e : Except RateLimitError Bool),
       (⟨(redisRateLimitWithDetail sys.redis now window userId limit).2.2,
         sys.localCache⟩ : SysState))
    | .ok lc =>
      (.ok (decide ((redisRateLimitWithDetail sys.redis now window userId limit).1 ≤ limit)),
       ⟨(redisRateLimitWithDetail sys.redis now window userId limit).2.2, lc⟩)) = _
  rw [hupd]

theorem hybrid_bool_preserves_wf (sys : SysState) (now window : Int) (storeUp : Bool)
    (userId : String) (limit : Int) (h : WFCache sys.localCache) :
    WFCache ((hybridRateLimit sys now window storeUp userId limit).2).localCache := by
  cases hc : checkLocalCache sys.localCache now userId limit with
  | error e =>
    have heq : hybridRateLimit sys now window storeUp userId limit = (.error e, sys) := by
      unfold hybridRateLimit; rw [hc]
    rw [heq]
    exact h
  | ok pass =>
    cases pass with
    | false =>
      have heq : hybridRateLimit sys now window storeUp userId limit = (.ok false, sys) := by
        unfold hybridRateLimit; rw [hc]
      rw [heq]
      exact h
    | true =>
      cases storeUp with
      | false =>
        obtain ⟨lc, hlc, hwf⟩ := incrementLocalCache_ok_wf now window userId limit h
        rw [hybrid_bool_degraded_eq sys now window userId limit lc hc hlc]
        cases hl2 : assocLoad lc userId with
        | none => exact hwf
        | some v =>
          obtain ⟨e, he, -⟩ := asEntry_ok_of_wf hwf hl2
          subst he
          exact hwf
      | true =>
        obtain ⟨lc, hlc, hwf⟩ := updateLocalCache_ok_wf now userId limit
          (redisRateLimitWithDetail sys.redis now window userId limit).1
          (redisRateLimitWithDetail sys.redis now window userId limit).2.1 h
        rw [hybrid_bool_pass_storeUp_eq sys now window userId limit lc hc hlc]
        exact hwf

theorem applyOp_preserves_wf (sys : SysState) (op : CacheOp)
    (h : WFCache sys.localCache) : WFCache (applyOp sys op).localCache := by
  cases op with
  | detailCall now window storeUp userId limit =>
    exact hybrid_detail_preserves_wf sys now window storeUp userId limit h
  | boolCall now window storeUp userId limit =>
    exact hybrid_bool_preserves_wf sys now window storeUp userId limit h
  | sweep now =>
    obtain ⟨lc, hlc, hwf⟩ := cleanup_ok_wf now h
    show WFCache ((match cleanupExpiredEntries sys.localCache now with
      | Except.error _ => sys
      | Except.ok lc2 => (⟨sys.redis, lc2⟩ : SysState)).localCache)
    rw [hlc]
    exact hwf

theorem runOps_preserves_wf (ops : List CacheOp) :
    ∀ sys, WFCache sys.localCache → WFCache (runOps sys ops).localCache := by
  induction ops with
  | nil => intro sys h; exact h
  | cons op rest ih =>
    intro sys h
    exact ih _ (applyOp_preserves_wf sys op h)

/-- Claim C10: starting from the empty table, after any sequence of
operations (detail calls, boolean calls, sweeps — with any arguments and
any Store availability) every value in the local table is a genuine
`*CacheEntry`, and consequently every reader's unchecked
`value.(*CacheEntry)` assertion succeeds: the check, the overwrite, the
degraded increment and the sweep all complete without an
`internalInvariant` failure on the reachable table. -/
theorem c10_local_cache_values_always_entries (ops : List CacheOp) (now window : Int)
    (userId : String) (limit currentCount ttl : Int) :
    WFCache (runOps initialState ops).localCache ∧
    (∃ b, checkLocalCache (runOps initialState ops).localCache now userId limit = .ok b) ∧
    (∃ lc, incrementLocalCache (runOps initialState ops).localCache now window userId
      limit = .ok lc) ∧
    (∃ lc, updateLocalCacheWithRedisValues (runOps initialState ops).localCache now userId
      limit currentCount ttl = .ok lc) ∧
    (∃ lc, cleanupExpiredEntries (runOps initialState ops).localCache now = .ok lc) := by
  have h0 : WFCache initialState.localCache := by
    intro p hp
    cases hp
  have hwf := runOps_preserves_wf ops initialState h0
  refine ⟨hwf, checkLocalCache_ok_of_wf now userId limit hwf, ?_, ?_, ?_⟩
  · obtain ⟨lc, hlc, -⟩ := incrementLocalCache_ok_wf now window userId limit hwf
    exact ⟨lc, hlc⟩
  · obtain ⟨lc, hlc, -⟩ := updateLocalCache_ok_wf now userId limit currentCount ttl hwf
    exact ⟨lc, hlc⟩
  · obtain ⟨lc, hlc, -⟩ := cleanup_ok_wf now hwf
    exact ⟨lc, hlc⟩

namespace StoreAtomicity

/-!
Concurrency model for claim C8. `RedisRateLimitRepository` submits
`SETNX key 0 EX window` and `INCR key` through `redisClient.Pipeline()` —
a plain (non-transactional) pipeline, so against the backend they are two
separate atomic commands with other activity possibly interleaved, not
one atomic unit. The model below executes, for a single shared key, any
interleaving of concurrent callers each running the two-command pipeline,
plus an environment step `tick` standing for the key's TTL elapsing.
-/

/-- Abstract single-key backend state: the counter value and whether the
key currently carries an expiry. -/
structure RKey where
  value : Int
  hasExpiry : Bool
deriving Repr, DecidableEq

/-- One step of a concurrent execution: caller `client` executes the
next command of its pipeline `[SETNX, INCR]`, or the key's TTL elapses. -/
inductive Move
  | cmd (client : Nat)
  | tick
deriving Repr, DecidableEq

/-- A configuration: the key's state, how many pipeline commands each
caller has executed so far, and how many steps so far created the key. -/
structure Cfg where
  key : Option RKey
  progress : List (Nat × Nat)
  inits : Nat
deriving Repr, DecidableEq

def progOf (p : List (Nat × Nat)) (i : Nat) : Nat :=
  match assocLoad p i with
  | none => 0
  | some n => n

/-- `SETNX key 0 EX window` as one atomic backend command: creates the
key with an expiry only if absent. -/
def setNXStep (k : Option RKey) : Option RKey :=
  match k with
  | none => some ⟨0, true⟩
  | some e => some e

/-- `INCR key` as one atomic backend command: a missing key is created at
1 **without** an expiry, per Redis semantics. -/
def incrStep (k : Option RKey) : Option RKey :=
  match k with
  | none => some ⟨1, false⟩
  | some e => some ⟨e.value + 1, e.hasExpiry⟩

/-- Whether a command execution created (initialized) the key. -/
def isCreate (before after : Option RKey) : Bool :=
  match before, after with
  | none, some _ => true
  | _, _ => false

/-- Small-step semantics; `none` marks an invalid trace (a caller with no
commands left moving again). -/
def step (c : Cfg) (m : Move) : Option Cfg :=
  match m with
  | .tick =>
    match c.key with
    | some e => if e.hasExpiry then some ⟨none, c.progress, c.inits⟩ else some c
    | none => some c
  | .cmd i =>
    match progOf c.progress i with
    | 0 =>
      some ⟨setNXStep c.key, assocStore c.progress i 1,
        c.inits + (if isCreate c.key (setNXStep c.key) then 1 else 0)⟩
    | 1 =>
      some ⟨incrStep c.key, assocStore c.progress i 2,
        c.inits + (if isCreate c.key (incrStep c.key) then 1 else 0)⟩
    | _ => none

def runMoves (c : Cfg) : List Move → Option Cfg
  | [] => some c
  | m :: rest =>
    match step c m with
    | none => none
    | some c2 => runMoves c2 rest

/-- No key, no caller has moved, nothing initialized yet. -/
def startCfg : Cfg := ⟨none, [], 0⟩

/-- The trace contains no TTL-elapse step. -/
def noTick (tr : List Move) : Prop := ∀ m ∈ tr, m ≠ Move.tick

/-- Claim C8 (counterexample to the claim as stated): the two pipeline
commands are not an atomic unit — in the interleaving where the key's
TTL elapses between caller 0's `SETNX` and its `INCR`, the `INCR`
recreates the counter **without an expiry** (`hasExpiry = false`, a
counter that would never reset) and the key is initialized twice
(`inits = 2`), the very outcomes the claim says no interleaving can
produce. -/
theorem c8_pipeline_not_atomic :
    runMoves startCfg [Move.cmd 0, Move.tick, Move.cmd 0] =
      some ⟨some ⟨1, false⟩, [(0, 2)], 2⟩ := by
  decide

/-- The inductive invariant for expiry-free executions: either nothing
has happened yet, or the key exists with an expiry and was initialized
exactly once. -/
def Inv (c : Cfg) : Prop :=
  (c.key = none ∧ c.inits = 0 ∧ ∀ i, progOf c.progress i = 0) ∨
  (∃ v, c.key = some ⟨v, true⟩ ∧ c.inits = 1)

theorem step_preserves_inv (c : Cfg) (m : Move) (c2 : Cfg) (hm : m ≠ Move.tick)
    (hstep : step c m = some c2) (h : Inv c) : Inv c2 := by
  cases m with
  | tick => exact absurd rfl hm
  | cmd i =>
    have hstepA : (match progOf c.progress i with
      | 0 => some (⟨setNXStep c.key, assocStore c.progress i 1,
          c.inits + (if isCreate c.key (setNXStep c.key) then 1 else 0)⟩ : Cfg)
      | 1 => some (⟨incrStep c.key, assocStore c.progress i 2,
          c.inits + (if isCreate c.key (incrStep c.key) then 1 else 0)⟩ : Cfg)
      | _ => none) = some c2 := hstep
    clear hstep
    rcases h with ⟨hk, hi, hp⟩ | ⟨v, hk, hi⟩
    · rw [hp i] at hstepA
      have hstep2 : some (⟨setNXStep c.key, assocStore c.progress i 1,
          c.inits + (if isCreate c.key (setNXStep c.key) then 1 else 0)⟩ : Cfg) =
          some c2 := hstepA
      cases hstep2
      right
      refine ⟨0, ?_, ?_⟩
      · show setNXStep c.key = some ⟨0, true⟩
        rw [hk]
        rfl
      · show c.inits + (if isCreate c.key (setNXStep c.key) then 1 else 0) = 1
        rw [hk, hi]
        rfl
    · cases hprog : progOf c.progress i with
      | zero =>
        rw [hprog] at hstepA
        have hstep2 : some (⟨setNXStep c.key, assocStore c.progress i 1,
            c.inits + (if isCreate c.key (setNXStep c.key) then 1 else 0)⟩ : Cfg) =
            some c2 := hstepA
        cases hstep2
        right
        refine ⟨v, ?_, ?_⟩
        · show setNXStep c.key = some ⟨v, true⟩
          rw [hk]
          rfl
        · show c.inits + (if isCreate c.key (setNXStep c.key) then 1 else 0) = 1
          rw [hk, hi]
          rfl
      | succ n =>
        cases n with
        | zero =>
          rw [hprog] at hstepA
          have hstep2 : some (⟨incrStep c.key, assocStore c.progress i 2,
              c.inits + (if isCreate c.key (incrStep c.key) then 1 else 0)⟩ : Cfg) =
              some c2 := hstepA
          cases hstep2
          right
          refine ⟨v + 1, ?_, ?_⟩
          · show incrStep c.key = some ⟨v + 1, true⟩
            rw [hk]
            rfl
          · show c.inits + (if isCreate c.key (incrStep c.key) then 1 else 0) = 1
            rw [hk, hi]
            rfl
        | succ n2 =>
          rw [hprog] at hstepA
          have hstep2 : (none : Option Cfg) = some c2 := hstepA
          cases hstep2

theorem runMoves_preserves_inv (tr : List Move) :
    ∀ c c2, Inv c → noTick tr → runMoves c tr = some c2 → Inv c2 := by
  induction tr with
  | nil =>
    intro c c2 h _ hrun
    have hrun2 : some c = some c2 := hrun
    cases hrun2
    exact h
  | cons m rest ih =>
    intro c c2 h hnt hrun
    unfold runMoves at hrun
    cases hs : step c m with
    | none => rw [hs] at hrun; cases hrun
    | some cmid =>
      rw [hs] at hrun
      have hrun2 : runMoves cmid rest = some c2 := hrun
      have hm : m ≠ Move.tick := hnt m (List.mem_cons_self _ _)
      exact ih cmid c2 (step_preserves_inv c m cmid hm hs h)
        (fun x hx => hnt x (List.mem_cons_of_mem _ hx)) hrun2

/-- Claim C8 (amended): the adapter issues its two commands in one
non-transactional pipeline, not as an atomic unit; still, along every
interleaving of concurrent callers in which the key's TTL does not elapse
mid-trace, the counter never exists without an expiry and is initialized
at most once. (With a TTL elapse between a caller's two commands the
guarantee fails — see the counterexample.) -/
theorem c8_caller_interleavings_safe (tr : List Move) (c : Cfg)
    (hnt : noTick tr) (hrun : runMoves startCfg tr = some c) :
    (∀ k, c.key = some k → k.hasExpiry = true) ∧ c.inits ≤ 1 := by
  have hinv : Inv c := runMoves_preserves_inv tr startCfg c
    (Or.inl ⟨rfl, rfl, fun i => rfl⟩) hnt hrun
  rcases hinv with ⟨hk, hi, -⟩ | ⟨v, hk, hi⟩
  · constructor
    · intro k hx
      rw [hk] at hx
      cases hx
    · rw [hi]
      exact Nat.zero_le 1
  · constructor
    · intro k hx
      rw [hk] at hx
      cases hx
      rfl
    · rw [hi]

theorem c8_caller_interleavings_witness :
    (⟨2, true⟩ : RKey).hasExpiry = true ∧
    (⟨some ⟨2, true⟩, [(0, 2), (1, 2)], 1⟩ : Cfg).inits ≤ 1 := by
  have h := c8_caller_interleavings_safe [Move.cmd 0, Move.cmd 1, Move.cmd 0, Move.cmd 1]
    ⟨some ⟨2, true⟩, [(0, 2), (1, 2)], 1⟩ (by unfold noTick; decide) (by decide)
  exact ⟨h.1 ⟨2, true⟩ rfl, h.2⟩

end StoreAtomicity

end RateLimit
